import Mathlib

/-!
Shallow embedding of the analytics core of the Seng321 learning-platform
repository (the `dashboard` and `instructor_dashboard` routes in
`src/app.py`), together with theorems checking the natural-language
specification against it.

Modelling conventions:
* timestamps are reduced to day granularity and represented as integers
  (day 0 is 1970-01-01, a Thursday, so the Python `date.weekday()` of
  day `t` is `(t + 3) % 7` with Monday = 0);
* Python numbers are exact rationals;
* a Python value that may be `None` is an `Option`;
* a Python expression that can raise (summing a list that may contain
  `None`) is `Option`-valued, `none` meaning the exception.

The entity classes (`models/entities.py`) are not part of the sources;
their fields are modelled from the spec data model: a grade's `score`,
`pronunciation_score` and `fluency_score` are optional numbers.
-/

namespace Seng321

inductive SubType
  | SPEAKING
  | WRITING
  | HANDWRITTEN
deriving DecidableEq, Repr

/-- A `Grade` row (modelled from the spec data model: every score field is an
optional number; `models/entities.py` is not among the sources). -/
structure Grade where
  score : Option ℚ
  pronunciation_score : Option ℚ
  fluency_score : Option ℚ
deriving DecidableEq, Repr

/-- A `Submission` row together with its (optional) grade, as read by the
dashboard code. -/
structure Submission where
  student_id : ℕ
  submission_type : SubType
  created_at : ℤ
  grade : Option Grade
deriving DecidableEq, Repr

/-- A `Quiz` row: `score` may be `NULL`, `date_taken` may be `NULL`. -/
structure Quiz where
  score : Option ℚ
  date_taken : Option ℤ
deriving DecidableEq, Repr

/-! ### Rounding

`round(x, 1)` in Python rounds to one decimal, ties to the even last digit
(banker's rounding).  On the exact rationals of this embedding that is:
scale by 10, round to the nearest integer with ties to even, scale back. -/

/-- Nearest integer to `y`, ties going to the even integer
(the rounding used by Python's builtin `round`). -/
def rne (y : ℚ) : ℤ :=
  if y - ⌊y⌋ < 1/2 then ⌊y⌋
  else if 1/2 < y - ⌊y⌋ then ⌊y⌋ + 1
  else if 2 ∣ ⌊y⌋ then ⌊y⌋ else ⌊y⌋ + 1

/-- Python `round(x, 1)`. -/
def round1 (x : ℚ) : ℚ := (rne (10 * x) : ℚ) / 10

/-- Round half away from zero to one decimal.  This is NOT what the code
uses; it is the rounding named by the spec, defined here only to compare
the two (claim C7). -/
def roundAway1 (x : ℚ) : ℚ :=
  ((if 0 ≤ x then ⌊10 * x + 1/2⌋ else -⌊-(10 * x) + 1/2⌋ : ℤ) : ℚ) / 10

/-- Python `sum(...)` over a list whose elements may be `None`: raises
(returns `none`) as soon as a `None` takes part in the addition. -/
def pySum : List (Option ℚ) → Option ℚ
  | [] => some 0
  | o :: rest => o.bind fun v => (pySum rest).map fun s => v + s

/-! ### Headline area scores (`app.py` lines 128-144, 282-291, 352-353, 608-612)

The filtered sub-lists mirror the Python list comprehensions; note that
`s.grade` truthiness in Python is just presence of the grade row. -/

/-- `speaking_subs = [s for s in submissions if s.submission_type == 'SPEAKING' and s.grade]`. -/
def speaking_subs (subs : List Submission) : List Submission :=
  subs.filter fun s => decide (s.submission_type = SubType.SPEAKING) && s.grade.isSome

/-- `writing_subs = [s for s in submissions if s.submission_type == 'WRITING' and s.grade]`. -/
def writing_subs (subs : List Submission) : List Submission :=
  subs.filter fun s => decide (s.submission_type = SubType.WRITING) && s.grade.isSome

/-- `handwritten_subs = [s for s in submissions if s.submission_type == 'HANDWRITTEN' and s.grade]`. -/
def handwritten_subs (subs : List Submission) : List Submission :=
  subs.filter fun s => decide (s.submission_type = SubType.HANDWRITTEN) && s.grade.isSome

/-- The per-event speaking values collected at lines 131-134: the guard is
Python truthiness (`if sub.grade.pronunciation_score and sub.grade.fluency_score`),
so a present sub-score equal to 0 is rejected exactly like an absent one. -/
def speakingVals (subs : List Submission) : List ℚ :=
  (speaking_subs subs).filterMap fun s =>
    match s.grade with
    | some g =>
      match g.pronunciation_score, g.fluency_score with
      | some p, some f => if p = 0 ∨ f = 0 then none else some ((p + f) / 2)
      | _, _ => none
    | none => none

/-- `speaking_score` (lines 129-135): 0.0 with no qualifying events. -/
def speakingScore (subs : List Submission) : ℚ :=
  if speaking_subs subs = [] then 0
  else
    let scores := speakingVals subs
    if scores = [] then 0 else round1 (scores.sum / scores.length)

/-- `writing_score` (line 139): `round(sum(s.grade.score ...) / len(...), 1)`.
The generator reads `s.grade.score` with no `None` guard, and `sum` raises on
a `None` member, hence the `Option`-valued result. -/
def writingScore (subs : List Submission) : Option ℚ :=
  if writing_subs subs = [] then some 0
  else
    (pySum ((writing_subs subs).map fun s => s.grade.bind Grade.score)).map
      fun t => round1 (t / (writing_subs subs).length)

/-- `handwritten_score` (lines 283-285), same shape as the writing score. -/
def handwrittenScore (subs : List Submission) : Option ℚ :=
  if handwritten_subs subs = [] then some 0
  else
    (pySum ((handwritten_subs subs).map fun s => s.grade.bind Grade.score)).map
      fun t => round1 (t / (handwritten_subs subs).length)

/-- `quiz_score` (lines 288-291): here the code does filter `None` scores out
(`if q.score is not None`), so the function is total. -/
def quizScore (quizzes : List Quiz) : ℚ :=
  if quizzes = [] then 0
  else
    let l := quizzes.filterMap Quiz.score
    if l = [] then 0 else round1 (l.sum / l.length)

/-- `graded_subs = [s for s in submissions if s.grade]` (lines 352, 609). -/
def gradedSubs (subs : List Submission) : List Submission :=
  subs.filter fun s => s.grade.isSome

/-- `avg_score` / `class_avg` (lines 352-353 and 609-610 are the same
expression over different record sets): average of `s.grade.score` over all
graded submissions regardless of area, again with no `None` guard. -/
def avgScore (subs : List Submission) : Option ℚ :=
  if gradedSubs subs = [] then some 0
  else
    (pySum ((gradedSubs subs).map fun s => s.grade.bind Grade.score)).map
      fun t => round1 (t / (gradedSubs subs).length)

/-! ### Chart series (`app.py` lines 176-280)

Per-area event lists `(date, value)` mirror the chart collection loops, whose
guards test the sub-scores against `None` (not truthiness). -/

/-- Speaking chart events (lines 193-196 and 225-231): date and the exact
per-event mean `(pronunciation + fluency) / 2`. -/
def speakingEvents (subs : List Submission) : List (ℤ × ℚ) :=
  (speaking_subs subs).filterMap fun s =>
    match s.grade with
    | some g =>
      match g.pronunciation_score, g.fluency_score with
      | some p, some f => some (s.created_at, (p + f) / 2)
      | _, _ => none
    | none => none

/-- Writing chart events (lines 199-202 and 233-238). -/
def writingEvents (subs : List Submission) : List (ℤ × ℚ) :=
  (writing_subs subs).filterMap fun s =>
    match s.grade with
    | some g => g.score.map fun v => (s.created_at, v)
    | none => none

/-- Handwritten chart events (lines 205-208 and 240-245). -/
def handwrittenEvents (subs : List Submission) : List (ℤ × ℚ) :=
  (handwritten_subs subs).filterMap fun s =>
    match s.grade with
    | some g => g.score.map fun v => (s.created_at, v)
    | none => none

/-- Quiz chart events (lines 211-214 and 247-252): kept only when
`quiz.date_taken` is truthy and `quiz.score is not None`. -/
def quizEvents (quizzes : List Quiz) : List (ℤ × ℚ) :=
  quizzes.filterMap fun q =>
    match q.date_taken, q.score with
    | some d, some v => some (d, v)
    | _, _ => none

/-- One step of the by-date dictionary build
(`if date_key not in d: d[date_key] = []` then `d[date_key].append(score)`). -/
def insertBucket (d : ℤ) (v : ℚ) : List (ℤ × List ℚ) → List (ℤ × List ℚ)
  | [] => [(d, [v])]
  | (d', vs) :: rest =>
    if d' = d then (d', vs ++ [v]) :: rest else (d', vs) :: insertBucket d v rest

/-- The by-date dictionary built by the collection loops (lines 225-252). -/
def buildBuckets (events : List (ℤ × ℚ)) : List (ℤ × List ℚ) :=
  events.foldl (fun m e => insertBucket e.1 e.2 m) []

/-- Dictionary lookup, `none` when the key is absent. -/
def lookupBucket (m : List (ℤ × List ℚ)) (d : ℤ) : Option (List ℚ) :=
  (m.find? fun p => decide (p.1 = d)).map Prod.snd

/-- The shared x-axis (lines 189-217): the set `all_dates` of every
area's event dates, sorted ascending. -/
def chartDates (subs : List Submission) (quizzes : List Quiz) : List ℤ :=
  (((speakingEvents subs ++ writingEvents subs ++ handwrittenEvents subs
      ++ quizEvents quizzes).map Prod.fst).toFinset).sort (· ≤ ·)

/-- One area's series (lines 255-280): for each date of the axis, the
rounded mean of the bucket when the date is in the dictionary, else 0. -/
def chartSeriesFor (events : List (ℤ × ℚ)) (dates : List ℤ) : List ℚ :=
  dates.map fun d =>
    match lookupBucket (buildBuckets events) d with
    | some vs => round1 (vs.sum / vs.length)
    | none => 0

/-- `chart_data['speaking_scores']`. -/
def chartSpeaking (subs : List Submission) (quizzes : List Quiz) : List ℚ :=
  chartSeriesFor (speakingEvents subs) (chartDates subs quizzes)

/-- `chart_data['writing_scores']`. -/
def chartWriting (subs : List Submission) (quizzes : List Quiz) : List ℚ :=
  chartSeriesFor (writingEvents subs) (chartDates subs quizzes)

/-- `chart_data['handwritten_scores']`. -/
def chartHandwritten (subs : List Submission) (quizzes : List Quiz) : List ℚ :=
  chartSeriesFor (handwrittenEvents subs) (chartDates subs quizzes)

/-- `chart_data['quiz_scores']`. -/
def chartQuiz (subs : List Submission) (quizzes : List Quiz) : List ℚ :=
  chartSeriesFor (quizEvents quizzes) (chartDates subs quizzes)

/-- What claim C1 says a slot holds: the mean of the area's event values on
that date rounded to one decimal when there is at least one, else 0.
Stated from the claim's words, to be compared with the dictionary-based
code path. -/
def areaSlot (events : List (ℤ × ℚ)) (d : ℤ) : ℚ :=
  let vs := (events.filter fun e => decide (e.1 = d)).map Prod.snd
  if vs = [] then 0 else round1 (vs.sum / vs.length)

/-! ### Current streak (`app.py` lines 146-159) -/

/-- The set `submission_dates` (lines 150-152), as a duplicate-free list. -/
def submissionDates (subs : List Submission) : List ℤ :=
  (subs.map fun s => s.created_at).dedup

/-- The backward `while check_date in submission_dates` scan (lines 156-159),
with explicit fuel; the set is finite so enough fuel makes the fuel bound
unreachable. -/
def streakGo (dates : List ℤ) : ℕ → ℤ → ℕ
  | 0, _ => 0
  | n + 1, d => if d ∈ dates then streakGo dates n (d - 1) + 1 else 0

/-- `current_streak` (lines 147-159): 0 when there are no submissions,
else the backward scan from `today`. -/
def currentStreak (subs : List Submission) (today : ℤ) : ℕ :=
  if subs = [] then 0
  else streakGo (submissionDates subs) ((submissionDates subs).length + 1) today

/-! ### Weekly goal (`app.py` lines 161-168) -/

/-- Python `date.weekday()` (Monday = 0) of day number `t`
(day 0 = 1970-01-01 is a Thursday, weekday 3). -/
def pyWeekday (t : ℤ) : ℤ := (t + 3) % 7

/-- `week_start = today - timedelta(days=today.weekday())` (line 163). -/
def weekStart (today : ℤ) : ℤ := today - pyWeekday today

/-- `weekly_submissions` (line 164): submissions dated on or after the week
start, graded or not. -/
def weeklySubmissions (subs : List Submission) (today : ℤ) : List Submission :=
  subs.filter fun s => decide (weekStart today ≤ s.created_at)

/-- `weekly_goal_current = len(weekly_submissions)` (line 165). -/
def weeklyCurrent (subs : List Submission) (today : ℤ) : ℕ :=
  (weeklySubmissions subs today).length

/-- `weekly_goal_target = 5` (line 166). -/
def weeklyTarget : ℕ := 5

/-- `weekly_goal_percentage` (line 167):
`min(100, int((current / target) * 100)) if target > 0 else 0`; Python
`int(...)` truncates, which on this nonnegative value is the floor. -/
def weeklyPercentage (current target : ℕ) : ℤ :=
  if 0 < target then min 100 ⌊((current : ℚ) / (target : ℚ)) * 100⌋ else 0

/-- `weekly_goal_remaining = max(0, target - current)` (line 168). -/
def weeklyRemaining (current target : ℕ) : ℤ :=
  max 0 ((target : ℤ) - (current : ℤ))

/-- Erase the grade of a submission (used to state that the weekly count
ignores grading). -/
def ungrade (s : Submission) : Submission :=
  { s with grade := none }

/-! ### Insights (`app.py` lines 293-314) -/

inductive Area
  | Speaking
  | Writing
  | Quiz
  | Handwritten
deriving DecidableEq, Repr

/-- The fixed key order of the `area_scores` dict literal (lines 294-299). -/
def areaOrder : List Area :=
  [Area.Speaking, Area.Writing, Area.Quiz, Area.Handwritten]

/-- Position of an area in the dict literal order. -/
def areaPriority : Area → ℕ
  | Area.Speaking => 0
  | Area.Writing => 1
  | Area.Quiz => 2
  | Area.Handwritten => 3

/-- `non_zero_scores = {k: v for k, v in area_scores.items() if v > 0}`
(line 302), in iteration order. -/
def nonZeroPairs (f : Area → ℚ) : List (Area × ℚ) :=
  (areaOrder.map fun a => (a, f a)).filter fun p => decide (0 < p.2)

/-- Python `max(d, key=d.get)` over a non-empty iteration `b :: l`: keeps the
earliest element, replacing only on a strictly larger value. -/
def foldMax (b : Area × ℚ) : List (Area × ℚ) → Area × ℚ
  | [] => b
  | p :: rest => foldMax (if b.2 < p.2 then p else b) rest

/-- Python `min(d, key=d.get)`: replaces only on a strictly smaller value. -/
def foldMin (b : Area × ℚ) : List (Area × ℚ) → Area × ℚ
  | [] => b
  | p :: rest => foldMin (if p.2 < b.2 then p else b) rest

structure Insight where
  strongest : Area
  strongestScore : ℚ
  weakest : Area
  weakestScore : ℚ
deriving DecidableEq, Repr

/-- Lines 304-314: max/min over the non-zero dict when it is non-empty, the
fixed Speaking/Handwritten/0.0/0.0 fallback otherwise. -/
def insights (f : Area → ℚ) : Insight :=
  match nonZeroPairs f with
  | [] => ⟨Area.Speaking, 0, Area.Handwritten, 0⟩
  | p :: rest =>
    let s := foldMax p rest
    let w := foldMin p rest
    ⟨s.1, s.2, w.1, w.2⟩

/-! ### Recommendation (`app.py` lines 316-333)

The chain reads `writing_score`, which is `Option`-valued (a graded writing
submission with an absent score makes line 139 raise before the chain runs),
hence the `Option` result. -/

def recommendation (subs : List Submission) (quizzes : List Quiz) : Option String :=
  (writingScore subs).map fun w =>
    if speaking_subs subs = [] then "Improve Your Speaking"
    else if writing_subs subs = [] then "Improve Your Writing"
    else if speakingScore subs < 70 then "Improve Your Speaking"
    else if w < 70 then "Improve Your Writing"
    else if quizzes = [] then "Take a Quiz"
    else "Start Your First Activity"

/-- The chain exactly as claim C5 words it: rules (1) and (2) ask whether any
speaking / writing record exists at all, graded or not.  Stated from the
claim, to be compared with the code chain. -/
def claimRecommendation (subs : List Submission) (quizzes : List Quiz) : Option String :=
  (writingScore subs).map fun w =>
    if subs.filter (fun s => decide (s.submission_type = SubType.SPEAKING)) = [] then
      "Improve Your Speaking"
    else if subs.filter (fun s => decide (s.submission_type = SubType.WRITING)) = [] then
      "Improve Your Writing"
    else if speakingScore subs < 70 then "Improve Your Speaking"
    else if w < 70 then "Improve Your Writing"
    else if quizzes = [] then "Take a Quiz"
    else "Start Your First Activity"

/-! ### Instructor sparkline (`app.py` lines 613-640)

The four `defaultdict`s are filled by one pass over `all_subs` guarded by
`if sub_date in last_7_days`, touching only the bucket of the submission's
own date; each bucket is therefore the corresponding filter of `all_subs`,
which is how the per-day dictionaries are modelled here. -/

/-- `last_7_days = [today - timedelta(days=i) for i in range(6, -1, -1)]`. -/
def last7 (today : ℤ) : List ℤ :=
  ((List.range 7).reverse).map fun i => today - (i : ℤ)

/-- `sparkline_data['submissions']` (lines 619, 624-627, 636). -/
def sparkSubmissions (subs : List Submission) (today : ℤ) : List ℕ :=
  (last7 today).map fun d =>
    (subs.filter fun s =>
      decide (s.created_at = d) && decide (s.created_at ∈ last7 today)).length

/-- `sparkline_data['pending']` (lines 620, 628-629, 637): submissions of the
day with no grade row. -/
def sparkPending (subs : List Submission) (today : ℤ) : List ℕ :=
  (last7 today).map fun d =>
    (subs.filter fun s =>
      decide (s.created_at = d) && decide (s.created_at ∈ last7 today)
        && s.grade.isNone).length

/-- `sparkline_data['class_avg']` (lines 621, 630-631, 638): rounded mean of
the day's graded scores, 0.0 for an empty day; reading a `None` score
raises, hence the `Option` slots. -/
def sparkAvg (subs : List Submission) (today : ℤ) : List (Option ℚ) :=
  (last7 today).map fun d =>
    let bucket :=
      (subs.filter fun s =>
        decide (s.created_at = d) && decide (s.created_at ∈ last7 today)
          && s.grade.isSome).map fun s => s.grade.bind Grade.score
    if bucket = [] then some 0
    else (pySum bucket).map fun t => round1 (t / bucket.length)

/-- `sparkline_data['active_students']` (lines 622, 632, 639): distinct
student ids of the day. -/
def sparkActive (subs : List Submission) (today : ℤ) : List ℕ :=
  (last7 today).map fun d =>
    (((subs.filter fun s =>
        decide (s.created_at = d) && decide (s.created_at ∈ last7 today)).map
          fun s => s.student_id).dedup).length

/-! ### Dictionary-bucket lemmas (TimeBucketer semantics) -/

theorem lookupBucket_cons (d' : ℤ) (vs : List ℚ) (rest : List (ℤ × List ℚ)) (d : ℤ) :
    lookupBucket ((d', vs) :: rest) d = if d' = d then some vs else lookupBucket rest d := by
  by_cases h : d' = d <;> simp [lookupBucket, List.find?, h]

theorem lookupBucket_insert_self (m : List (ℤ × List ℚ)) (d : ℤ) (v : ℚ) :
    lookupBucket (insertBucket d v m) d = some ((lookupBucket m d).getD [] ++ [v]) := by
  induction m with
  | nil => simp [insertBucket, lookupBucket, List.find?]
  | cons p rest ih =>
    obtain ⟨d', vs⟩ := p
    by_cases h : d' = d
    · subst h
      simp [insertBucket, lookupBucket_cons]
    · simp [insertBucket, h, lookupBucket_cons, ih]

theorem lookupBucket_insert_ne (m : List (ℤ × List ℚ)) (d : ℤ) (v : ℚ) (d' : ℤ)
    (hne : d' ≠ d) :
    lookupBucket (insertBucket d v m) d' = lookupBucket m d' := by
  have h2 : ¬ (d = d') := fun h => hne h.symm
  induction m with
  | nil =>
    simp [insertBucket, lookupBucket, List.find?, h2]
  | cons p rest ih =>
    obtain ⟨d0, vs⟩ := p
    by_cases h : d0 = d
    · subst h
      simp [insertBucket, lookupBucket_cons, h2]
    · simp [insertBucket, h, lookupBucket_cons, ih]

theorem lookupBucket_foldl (es : List (ℤ × ℚ)) (m : List (ℤ × List ℚ)) (d : ℤ) :
    lookupBucket (es.foldl (fun acc e => insertBucket e.1 e.2 acc) m) d =
      if (es.filter fun e => decide (e.1 = d)) = [] then lookupBucket m d
      else some ((lookupBucket m d).getD [] ++
        ((es.filter fun e => decide (e.1 = d)).map Prod.snd)) := by
  induction es generalizing m with
  | nil => simp
  | cons e rest ih =>
    obtain ⟨de, ve⟩ := e
    by_cases h : de = d
    · subst h
      have hfil : (((de, ve) :: rest).filter fun e => decide (e.1 = de)) =
          (de, ve) :: (rest.filter fun e => decide (e.1 = de)) := by
        simp [List.filter_cons]
      rw [List.foldl_cons, ih, hfil]
      have hins := lookupBucket_insert_self m de ve
      have hcons : ((de, ve) :: (rest.filter fun e => decide (e.1 = de))) ≠ [] := by
        simp
      rw [if_neg hcons]
      by_cases hr : (rest.filter fun e => decide (e.1 = de)) = []
      · rw [if_pos hr, hins]
        simp [hr]
      · rw [if_neg hr, hins]
        simp
    · have hfil : (((de, ve) :: rest).filter fun e => decide (e.1 = d)) =
          rest.filter fun e => decide (e.1 = d) := by
        simp [List.filter_cons, h]
      rw [List.foldl_cons, ih, hfil, lookupBucket_insert_ne m de ve d fun hd => h hd.symm]

theorem lookupBucket_buildBuckets (es : List (ℤ × ℚ)) (d : ℤ) :
    lookupBucket (buildBuckets es) d =
      if (es.filter fun e => decide (e.1 = d)) = [] then none
      else some ((es.filter fun e => decide (e.1 = d)).map Prod.snd) := by
  rw [buildBuckets, lookupBucket_foldl]
  by_cases h : (es.filter fun e => decide (e.1 = d)) = [] <;>
    simp [h, lookupBucket, List.find?]

theorem chartSeriesFor_eq_map (events : List (ℤ × ℚ)) (dates : List ℤ) :
    chartSeriesFor events dates = dates.map (areaSlot events) := by
  unfold chartSeriesFor
  refine List.map_congr_left fun d _ => ?_
  rw [lookupBucket_buildBuckets]
  by_cases h : (events.filter fun e => decide (e.1 = d)) = []
  · simp [h, areaSlot]
  · simp only [h, if_neg, areaSlot]
    have : ((events.filter fun e => decide (e.1 = d)).map Prod.snd) ≠ [] := by
      simpa using h
    simp [this]

/-- Claim C1: the chart-series builder produces per-area score arrays that all
have the same length, equal to the number of distinct dates on which at least
one area has a graded event, index-aligned to the ascending-sorted date axis;
each slot holds the one-decimal-rounded mean of that area's event values on
that date when the area has any, and exactly 0 otherwise. -/
theorem chart_series_aligned_and_zero_filled (subs : List Submission) (quizzes : List Quiz) :
    (chartSpeaking subs quizzes).length = (chartDates subs quizzes).length ∧
    (chartWriting subs quizzes).length = (chartDates subs quizzes).length ∧
    (chartHandwritten subs quizzes).length = (chartDates subs quizzes).length ∧
    (chartQuiz subs quizzes).length = (chartDates subs quizzes).length ∧
    (chartDates subs quizzes).length =
      (((speakingEvents subs ++ writingEvents subs ++ handwrittenEvents subs
        ++ quizEvents quizzes).map Prod.fst).toFinset).card ∧
    List.Sorted (· ≤ ·) (chartDates subs quizzes) ∧
    (chartDates subs quizzes).Nodup ∧
    (∀ d : ℤ, d ∈ chartDates subs quizzes ↔
      ∃ e ∈ speakingEvents subs ++ writingEvents subs ++ handwrittenEvents subs
        ++ quizEvents quizzes, e.1 = d) ∧
    chartSpeaking subs quizzes =
      (chartDates subs quizzes).map (areaSlot (speakingEvents subs)) ∧
    chartWriting subs quizzes =
      (chartDates subs quizzes).map (areaSlot (writingEvents subs)) ∧
    chartHandwritten subs quizzes =
      (chartDates subs quizzes).map (areaSlot (handwrittenEvents subs)) ∧
    chartQuiz subs quizzes =
      (chartDates subs quizzes).map (areaSlot (quizEvents quizzes)) := by
  refine ⟨?_, ?_, ?_, ?_, ?_, ?_, ?_, ?_, ?_, ?_, ?_, ?_⟩
  · rw [chartSpeaking, chartSeriesFor_eq_map, List.length_map]
  · rw [chartWriting, chartSeriesFor_eq_map, List.length_map]
  · rw [chartHandwritten, chartSeriesFor_eq_map, List.length_map]
  · rw [chartQuiz, chartSeriesFor_eq_map, List.length_map]
  · exact Finset.length_sort _
  · exact Finset.sort_sorted _ _
  · exact Finset.sort_nodup _ _
  · intro d
    rw [chartDates, Finset.mem_sort, List.mem_toFinset, List.mem_map]
  · exact chartSeriesFor_eq_map _ _
  · exact chartSeriesFor_eq_map _ _
  · exact chartSeriesFor_eq_map _ _
  · exact chartSeriesFor_eq_map _ _

/-! ### Streak lemmas -/

theorem streakGo_mem (dates : List ℤ) :
    ∀ (f : ℕ) (d : ℤ) (j : ℕ), j < streakGo dates f d → (d - (j : ℤ)) ∈ dates := by
  intro f
  induction f with
  | zero => intro d j hj; simp [streakGo] at hj
  | succ n ih =>
    intro d j hj
    rw [streakGo] at hj
    by_cases h : d ∈ dates
    · rw [if_pos h] at hj
      match j with
      | 0 => simpa using h
      | j' + 1 =>
        have hj' : j' < streakGo dates n (d - 1) := by omega
        have := ih (d - 1) j' hj'
        have heq : d - ((j' : ℤ) + 1) = (d - 1) - (j' : ℤ) := by ring
        rw [show ((j' + 1 : ℕ) : ℤ) = (j' : ℤ) + 1 by push_cast; ring, heq]
        exact this
    · rw [if_neg h] at hj
      omega

theorem streakGo_stop (dates : List ℤ) :
    ∀ (f : ℕ) (d : ℤ), streakGo dates f d < f →
      (d - (streakGo dates f d : ℤ)) ∉ dates := by
  intro f
  induction f with
  | zero => intro d h; omega
  | succ n ih =>
    intro d h
    by_cases hmem : d ∈ dates
    · rw [streakGo, if_pos hmem] at h ⊢
      have hlt : streakGo dates n (d - 1) < n := by omega
      have := ih (d - 1) hlt
      have heq : d - ((streakGo dates n (d - 1) : ℤ) + 1) =
          (d - 1) - (streakGo dates n (d - 1) : ℤ) := by ring
      rw [show ((streakGo dates n (d - 1) + 1 : ℕ) : ℤ) =
        (streakGo dates n (d - 1) : ℤ) + 1 by push_cast; ring, heq]
      exact this
    · rw [streakGo, if_neg hmem] at h ⊢
      simpa using hmem

theorem streakGo_le_length (dates : List ℤ) (f : ℕ) (d : ℤ) :
    streakGo dates f d ≤ dates.length := by
  have hmem := streakGo_mem dates f d
  have hsub : Finset.image (fun j : ℕ => d - (j : ℤ)) (Finset.range (streakGo dates f d)) ⊆
      dates.toFinset := by
    intro x hx
    rw [Finset.mem_image] at hx
    obtain ⟨j, hj, rfl⟩ := hx
    rw [Finset.mem_range] at hj
    exact List.mem_toFinset.2 (hmem j hj)
  have hinj : Function.Injective (fun j : ℕ => d - (j : ℤ)) := by
    intro a b hab
    simp only [sub_right_inj, Nat.cast_inj] at hab
    exact hab
  calc streakGo dates f d
      = (Finset.range (streakGo dates f d)).card := (Finset.card_range _).symm
    _ = (Finset.image (fun j : ℕ => d - (j : ℤ)) (Finset.range (streakGo dates f d))).card :=
        (Finset.card_image_of_injective _ hinj).symm
    _ ≤ dates.toFinset.card := Finset.card_le_card hsub
    _ ≤ dates.length := dates.toFinset_card_le

/-- Claim C2: the current streak is the largest n such that today, today-1,
..., today-(n-1) all carry at least one submission; it is 0 when today itself
is absent, 0 on no submissions, and 1 on a single submission dated today. -/
theorem streak_backward_scan (subs : List Submission) (today : ℤ) :
    (∀ d : ℤ, d ∈ submissionDates subs ↔ ∃ s ∈ subs, s.created_at = d) ∧
    (∀ j : ℕ, j < currentStreak subs today → (today - (j : ℤ)) ∈ submissionDates subs) ∧
    (today - (currentStreak subs today : ℤ)) ∉ submissionDates subs ∧
    (∀ n : ℕ, (∀ j : ℕ, j < n → (today - (j : ℤ)) ∈ submissionDates subs) →
      n ≤ currentStreak subs today) ∧
    (today ∉ submissionDates subs → currentStreak subs today = 0) ∧
    (subs = [] → currentStreak subs today = 0) ∧
    (∀ s : Submission, s.created_at = today → currentStreak [s] today = 1) := by
  have hsingle : ∀ s : Submission, s.created_at = today → currentStreak [s] today = 1 := by
    intro s hs
    have hne : ¬ (today - 1 = today) := by omega
    simp [currentStreak, submissionDates, streakGo, hs, hne]
  by_cases hsubs : subs = []
  · subst hsubs
    refine ⟨by simp [submissionDates], ?_, ?_, ?_, ?_, fun _ => rfl, hsingle⟩
    · intro j hj
      simp [currentStreak] at hj
    · simp [currentStreak, submissionDates]
    · intro n hn
      match n with
      | 0 => simp [currentStreak]
      | n' + 1 =>
        exfalso
        have := hn 0 (by omega)
        simp [submissionDates] at this
    · intro _
      rfl
  · have hk : currentStreak subs today =
        streakGo (submissionDates subs) ((submissionDates subs).length + 1) today := by
      rw [currentStreak, if_neg hsubs]
    have hdmem : ∀ j : ℕ, j < currentStreak subs today →
        (today - (j : ℤ)) ∈ submissionDates subs := by
      intro j hj
      rw [hk] at hj
      exact streakGo_mem _ _ _ _ hj
    have hlt : currentStreak subs today < (submissionDates subs).length + 1 := by
      rw [hk]
      have := streakGo_le_length (submissionDates subs)
        ((submissionDates subs).length + 1) today
      omega
    have hstop : (today - (currentStreak subs today : ℤ)) ∉ submissionDates subs := by
      rw [hk] at hlt ⊢
      exact streakGo_stop _ _ _ hlt
    refine ⟨?_, hdmem, hstop, ?_, ?_, fun h => absurd h hsubs, hsingle⟩
    · intro d
      rw [submissionDates, List.mem_dedup, List.mem_map]
    · intro n hn
      by_contra hgt
      push_neg at hgt
      exact hstop (hn (currentStreak subs today) hgt)
    · intro htoday
      by_contra hne
      have h0 : 0 < currentStreak subs today := Nat.pos_of_ne_zero hne
      have hmem0 := hdmem 0 h0
      rw [Nat.cast_zero, sub_zero] at hmem0
      exact htoday hmem0

/-- Witness for C2: three submissions on days 10, 9 and 5 give a streak of 2
on day 10. -/
theorem streak_backward_scan_witness :
    currentStreak
      [⟨0, SubType.WRITING, 10, none⟩, ⟨0, SubType.WRITING, 9, none⟩,
        ⟨0, SubType.WRITING, 5, none⟩] 10 = 2 := by
  have h := streak_backward_scan
    [⟨0, SubType.WRITING, 10, none⟩, ⟨0, SubType.WRITING, 9, none⟩,
      ⟨0, SubType.WRITING, 5, none⟩] 10
  obtain ⟨-, hmem, -, hmax, -, -, -⟩ := h
  have h2 : 2 ≤ currentStreak
      [⟨0, SubType.WRITING, 10, none⟩, ⟨0, SubType.WRITING, 9, none⟩,
        ⟨0, SubType.WRITING, 5, none⟩] 10 := by
    refine hmax 2 ?_
    intro j hj
    interval_cases j <;> decide
  have h3 : ¬ 3 ≤ currentStreak
      [⟨0, SubType.WRITING, 10, none⟩, ⟨0, SubType.WRITING, 9, none⟩,
        ⟨0, SubType.WRITING, 5, none⟩] 10 := by
    intro h3
    have h8 := hmem 2 (by omega)
    revert h8
    decide
  omega

/-! ### Weekly goal lemmas -/

theorem floor_ratio_eq_div (c t : ℕ) (ht : 0 < t) :
    ⌊((c : ℚ) / (t : ℚ)) * 100⌋ = ((c * 100) / t : ℕ) := by
  have h1 : ((c : ℚ) / (t : ℚ)) * 100 = (((c * 100 : ℕ) : ℤ) : ℚ) / ((t : ℕ) : ℚ) := by
    push_cast
    field_simp
  rw [h1, Rat.floor_intCast_div_natCast, ← Int.natCast_div]

/-- Claim C3: the weekly count is exactly the submissions (graded or not) on
or after the Monday-anchored week start; the percentage is the clamped floor
formula, the remaining is clamped at 0, and current 7 against target 5 gives
100 and 0. -/
theorem weekly_goal_progress (subs : List Submission) (today : ℤ) :
    weeklyCurrent subs today =
      subs.countP (fun s => decide (today - pyWeekday today ≤ s.created_at)) ∧
    pyWeekday (weekStart today) = 0 ∧
    0 ≤ pyWeekday today ∧ pyWeekday today < 7 ∧
    weekStart today ≤ today ∧ today - weekStart today < 7 ∧
    weeklyCurrent (subs.map ungrade) today = weeklyCurrent subs today ∧
    (∀ c t : ℕ, 0 < t → weeklyPercentage c t = ((min 100 ((c * 100) / t) : ℕ) : ℤ)) ∧
    (∀ c : ℕ, weeklyPercentage c 0 = 0) ∧
    (∀ c t : ℕ, weeklyRemaining c t = max 0 ((t : ℤ) - (c : ℤ))) ∧
    weeklyTarget = 5 ∧
    weeklyPercentage 7 weeklyTarget = 100 ∧
    weeklyRemaining 7 weeklyTarget = 0 := by
  refine ⟨?_, ?_, ?_, ?_, ?_, ?_, ?_, ?_, ?_, fun c t => rfl, rfl, ?_, ?_⟩
  · rw [weeklyCurrent, weeklySubmissions, List.countP_eq_length_filter]
    rfl
  · rw [weekStart, pyWeekday, pyWeekday]
    omega
  · rw [pyWeekday]; omega
  · rw [pyWeekday]; omega
  · rw [weekStart, pyWeekday]; omega
  · rw [weekStart, pyWeekday]; omega
  · unfold weeklyCurrent weeklySubmissions
    rw [List.filter_map, List.length_map]
    rfl
  · intro c t ht
    rw [weeklyPercentage, if_pos ht, floor_ratio_eq_div c t ht]
    omega
  · intro c
    rw [weeklyPercentage]
    simp
  · rw [weeklyPercentage, weeklyTarget]
    norm_num
  · rw [weeklyRemaining, weeklyTarget]
    norm_num

/-- Witness for C3: the concrete clamping instance, read off the theorem. -/
theorem weekly_goal_progress_witness :
    weeklyPercentage 7 weeklyTarget = 100 ∧ weeklyRemaining 7 weeklyTarget = 0 := by
  have h := weekly_goal_progress [] 0
  exact ⟨h.2.2.2.2.2.2.2.2.2.2.2.1, h.2.2.2.2.2.2.2.2.2.2.2.2⟩

/-! ### Insight fold lemmas (Python max / min over a dict keep the first
maximal / minimal key) -/

theorem foldMax_mem (b : Area × ℚ) (l : List (Area × ℚ)) : foldMax b l ∈ b :: l := by
  induction l generalizing b with
  | nil => simp [foldMax]
  | cons p rest ih =>
    rw [foldMax]
    by_cases h : b.2 < p.2
    · rw [if_pos h]
      have := ih p
      simp only [List.mem_cons] at this ⊢
      tauto
    · rw [if_neg h]
      have := ih b
      simp only [List.mem_cons] at this ⊢
      tauto

theorem le_foldMax (b : Area × ℚ) (l : List (Area × ℚ)) :
    ∀ q ∈ b :: l, q.2 ≤ (foldMax b l).2 := by
  induction l generalizing b with
  | nil =>
    intro q hq
    simp only [List.mem_singleton] at hq
    simp [hq, foldMax]
  | cons p rest ih =>
    intro q hq
    rw [foldMax]
    have hb : b.2 ≤ (if b.2 < p.2 then p else b).2 := by
      by_cases h : b.2 < p.2 <;> simp [h, le_of_lt]
    have hp : p.2 ≤ (if b.2 < p.2 then p else b).2 := by
      by_cases h : b.2 < p.2 <;> simp [h]
      · exact le_of_not_lt h
    have hhead := ih (if b.2 < p.2 then p else b) _ (List.mem_cons_self _ _)
    simp only [List.mem_cons] at hq
    rcases hq with rfl | rfl | hq
    · exact le_trans hb hhead
    · exact le_trans hp hhead
    · exact ih _ q (List.mem_cons_of_mem _ hq)

theorem foldMax_first (b : Area × ℚ) (l : List (Area × ℚ))
    (hpw : (b :: l).Pairwise fun p q => areaPriority p.1 < areaPriority q.1) :
    ∀ q ∈ b :: l, q.2 = (foldMax b l).2 →
      areaPriority (foldMax b l).1 ≤ areaPriority q.1 := by
  induction l generalizing b with
  | nil =>
    intro q hq _
    simp only [List.mem_singleton] at hq
    rw [hq]
    simp [foldMax]
  | cons p rest ih =>
    intro q hq heq
    rw [foldMax] at heq ⊢
    have hpw' : ((if b.2 < p.2 then p else b) :: rest).Pairwise
        fun p q => areaPriority p.1 < areaPriority q.1 := by
      rcases List.pairwise_cons.1 hpw with ⟨hb, hrest⟩
      rcases List.pairwise_cons.1 hrest with ⟨hp, hrest'⟩
      refine List.pairwise_cons.2 ⟨?_, hrest'⟩
      intro x hx
      by_cases h : b.2 < p.2
      · simpa [h] using hp x hx
      · simpa [h] using hb x (List.mem_cons_of_mem _ hx)
    simp only [List.mem_cons] at hq
    rcases hq with hqb | hqp | hq
    · -- q = b
      rw [hqb] at heq ⊢
      by_cases h : b.2 < p.2
      · exfalso
        rw [if_pos h] at heq
        have hle := le_foldMax p rest p (List.mem_cons_self _ _)
        rw [← heq] at hle
        exact absurd (lt_of_lt_of_le h hle) (lt_irrefl _)
      · rw [if_neg h] at heq hpw' ⊢
        exact ih b hpw' b (List.mem_cons_self _ _) heq
    · -- q = p
      rw [hqp] at heq ⊢
      by_cases h : b.2 < p.2
      · rw [if_pos h] at heq hpw' ⊢
        exact ih p hpw' p (List.mem_cons_self _ _) heq
      · -- p.2 ≤ b.2; since p.2 equals the running max, so does b.2
        rw [if_neg h] at heq hpw' ⊢
        have hble := le_foldMax b rest b (List.mem_cons_self _ _)
        have hqle : (foldMax b rest).2 ≤ b.2 := by
          have hh := le_of_not_lt h
          rw [heq] at hh
          exact hh
        have hbeq : b.2 = (foldMax b rest).2 := le_antisymm hble hqle
        have hres := ih b hpw' b (List.mem_cons_self _ _) hbeq
        have hbp : areaPriority b.1 < areaPriority p.1 :=
          (List.pairwise_cons.1 hpw).1 p (List.mem_cons_self _ _)
        omega
    · -- q in the tail
      by_cases h : b.2 < p.2
      · rw [if_pos h] at heq hpw' ⊢
        exact ih p hpw' q (List.mem_cons_of_mem _ hq) heq
      · rw [if_neg h] at heq hpw' ⊢
        exact ih b hpw' q (List.mem_cons_of_mem _ hq) heq

theorem foldMin_mem (b : Area × ℚ) (l : List (Area × ℚ)) : foldMin b l ∈ b :: l := by
  induction l generalizing b with
  | nil => simp [foldMin]
  | cons p rest ih =>
    rw [foldMin]
    by_cases h : p.2 < b.2
    · rw [if_pos h]
      have := ih p
      simp only [List.mem_cons] at this ⊢
      tauto
    · rw [if_neg h]
      have := ih b
      simp only [List.mem_cons] at this ⊢
      tauto

theorem foldMin_le (b : Area × ℚ) (l : List (Area × ℚ)) :
    ∀ q ∈ b :: l, (foldMin b l).2 ≤ q.2 := by
  induction l generalizing b with
  | nil =>
    intro q hq
    simp only [List.mem_singleton] at hq
    simp [hq, foldMin]
  | cons p rest ih =>
    intro q hq
    rw [foldMin]
    have hb : (if p.2 < b.2 then p else b).2 ≤ b.2 := by
      by_cases h : p.2 < b.2 <;> simp [h, le_of_lt]
    have hp : (if p.2 < b.2 then p else b).2 ≤ p.2 := by
      by_cases h : p.2 < b.2 <;> simp [h]
      · exact le_of_not_lt h
    have hhead := ih (if p.2 < b.2 then p else b) _ (List.mem_cons_self _ _)
    simp only [List.mem_cons] at hq
    rcases hq with rfl | rfl | hq
    · exact le_trans hhead hb
    · exact le_trans hhead hp
    · exact ih _ q (List.mem_cons_of_mem _ hq)

theorem foldMin_first (b : Area × ℚ) (l : List (Area × ℚ))
    (hpw : (b :: l).Pairwise fun p q => areaPriority p.1 < areaPriority q.1) :
    ∀ q ∈ b :: l, q.2 = (foldMin b l).2 →
      areaPriority (foldMin b l).1 ≤ areaPriority q.1 := by
  induction l generalizing b with
  | nil =>
    intro q hq _
    simp only [List.mem_singleton] at hq
    rw [hq]
    simp [foldMin]
  | cons p rest ih =>
    intro q hq heq
    rw [foldMin] at heq ⊢
    have hpw' : ((if p.2 < b.2 then p else b) :: rest).Pairwise
        fun p q => areaPriority p.1 < areaPriority q.1 := by
      rcases List.pairwise_cons.1 hpw with ⟨hb, hrest⟩
      rcases List.pairwise_cons.1 hrest with ⟨hp, hrest'⟩
      refine List.pairwise_cons.2 ⟨?_, hrest'⟩
      intro x hx
      by_cases h : p.2 < b.2
      · simpa [h] using hp x hx
      · simpa [h] using hb x (List.mem_cons_of_mem _ hx)
    simp only [List.mem_cons] at hq
    rcases hq with hqb | hqp | hq
    · -- q = b
      rw [hqb] at heq ⊢
      by_cases h : p.2 < b.2
      · exfalso
        rw [if_pos h] at heq
        have hle := foldMin_le p rest p (List.mem_cons_self _ _)
        rw [← heq] at hle
        exact absurd (lt_of_le_of_lt hle h) (lt_irrefl _)
      · rw [if_neg h] at heq hpw' ⊢
        exact ih b hpw' b (List.mem_cons_self _ _) heq
    · -- q = p
      rw [hqp] at heq ⊢
      by_cases h : p.2 < b.2
      · rw [if_pos h] at heq hpw' ⊢
        exact ih p hpw' p (List.mem_cons_self _ _) heq
      · rw [if_neg h] at heq hpw' ⊢
        have hble := foldMin_le b rest b (List.mem_cons_self _ _)
        have hmin : b.2 ≤ (foldMin b rest).2 := by
          have hh := le_of_not_lt h
          rw [heq] at hh
          exact hh
        have hbeq : b.2 = (foldMin b rest).2 := le_antisymm hmin hble
        have hres := ih b hpw' b (List.mem_cons_self _ _) hbeq
        have hbp : areaPriority b.1 < areaPriority p.1 :=
          (List.pairwise_cons.1 hpw).1 p (List.mem_cons_self _ _)
        omega
    · by_cases h : p.2 < b.2
      · rw [if_pos h] at heq hpw' ⊢
        exact ih p hpw' q (List.mem_cons_of_mem _ hq) heq
      · rw [if_neg h] at heq hpw' ⊢
        exact ih b hpw' q (List.mem_cons_of_mem _ hq) heq

theorem mem_areaOrder (a : Area) : a ∈ areaOrder := by
  cases a <;> simp [areaOrder]

theorem nonZeroPairs_sound (f : Area → ℚ) :
    ∀ p ∈ nonZeroPairs f, p.2 = f p.1 ∧ 0 < p.2 := by
  intro p hp
  rw [nonZeroPairs, List.mem_filter] at hp
  obtain ⟨hmem, hpos⟩ := hp
  rw [List.mem_map] at hmem
  obtain ⟨a, _, rfl⟩ := hmem
  exact ⟨rfl, by simpa using hpos⟩

theorem pair_mem_nonZeroPairs (f : Area → ℚ) (a : Area) (ha : 0 < f a) :
    (a, f a) ∈ nonZeroPairs f := by
  rw [nonZeroPairs, List.mem_filter]
  refine ⟨List.mem_map.2 ⟨a, mem_areaOrder a, rfl⟩, by simpa using ha⟩

theorem nonZeroPairs_pairwise (f : Area → ℚ) :
    (nonZeroPairs f).Pairwise fun p q => areaPriority p.1 < areaPriority q.1 := by
  have hbase : areaOrder.Pairwise fun a b => areaPriority a < areaPriority b := by
    simp [areaOrder, areaPriority]
  have hmap : ((areaOrder.map fun a => (a, f a)).Pairwise
      fun p q => areaPriority p.1 < areaPriority q.1) := by
    rw [List.pairwise_map]
    exact hbase
  exact hmap.sublist (List.filter_sublist _)

theorem nonZeroPairs_eq_nil_iff (f : Area → ℚ) :
    nonZeroPairs f = [] ↔ ∀ a : Area, ¬ (0 < f a) := by
  rw [nonZeroPairs, List.filter_eq_nil_iff]
  constructor
  · intro h a
    have := h (a, f a) (List.mem_map.2 ⟨a, mem_areaOrder a, rfl⟩)
    simpa using this
  · intro h p hp
    rw [List.mem_map] at hp
    obtain ⟨a, _, rfl⟩ := hp
    simpa using h a

/-- Claim C4: areas scoring 0 are excluded before max/min; all-zero input
yields the fixed Speaking/Handwritten fallback with both scores 0.0; with at
least one nonzero area, strongest and weakest are a maximal resp. minimal
nonzero-scored area carrying their own scores. -/
theorem insights_exclude_zero_and_fallback (f : Area → ℚ) (hnn : ∀ a, 0 ≤ f a) :
    ((∀ a, f a = 0) →
      insights f = ⟨Area.Speaking, 0, Area.Handwritten, 0⟩) ∧
    ((∃ a, f a ≠ 0) →
      0 < f (insights f).strongest ∧
      (insights f).strongestScore = f (insights f).strongest ∧
      (∀ a, 0 < f a → f a ≤ f (insights f).strongest) ∧
      0 < f (insights f).weakest ∧
      (insights f).weakestScore = f (insights f).weakest ∧
      (∀ a, 0 < f a → f (insights f).weakest ≤ f a)) := by
  constructor
  · intro h0
    have he : nonZeroPairs f = [] := by
      rw [nonZeroPairs_eq_nil_iff]
      intro a
      rw [h0 a]
      exact lt_irrefl 0
    rw [insights, he]
  · rintro ⟨a0, ha0⟩
    have ha0' : 0 < f a0 := lt_of_le_of_ne (hnn a0) (Ne.symm ha0)
    rcases hn : nonZeroPairs f with _ | ⟨p, rest⟩
    · exact absurd (hn ▸ pair_mem_nonZeroPairs f a0 ha0') (List.not_mem_nil _)
    · have hins : insights f =
          ⟨(foldMax p rest).1, (foldMax p rest).2, (foldMin p rest).1, (foldMin p rest).2⟩ := by
        rw [insights, hn]
      have hsound := nonZeroPairs_sound f
      have hsmem : foldMax p rest ∈ nonZeroPairs f := hn ▸ foldMax_mem p rest
      have hwmem : foldMin p rest ∈ nonZeroPairs f := hn ▸ foldMin_mem p rest
      obtain ⟨hseq, hspos⟩ := hsound _ hsmem
      obtain ⟨hweq, hwpos⟩ := hsound _ hwmem
      rw [hins]
      refine ⟨hseq ▸ hspos, hseq, ?_, hweq ▸ hwpos, hweq, ?_⟩
      · intro a ha
        have hamem : (a, f a) ∈ p :: rest := hn ▸ pair_mem_nonZeroPairs f a ha
        have := le_foldMax p rest (a, f a) hamem
        simpa [hseq] using this
      · intro a ha
        have hamem : (a, f a) ∈ p :: rest := hn ▸ pair_mem_nonZeroPairs f a ha
        have := foldMin_le p rest (a, f a) hamem
        simpa [hweq] using this

/-- A concrete score mapping for the C4 witness. -/
def demoScores : Area → ℚ
  | Area.Speaking => 70
  | Area.Writing => 90
  | Area.Quiz => 0
  | Area.Handwritten => 0

/-- Witness for C4 at a mapping with two nonzero areas. -/
theorem insights_exclude_zero_and_fallback_witness :
    0 < demoScores (insights demoScores).strongest ∧
    (insights demoScores).strongestScore = demoScores (insights demoScores).strongest ∧
    (∀ a, 0 < demoScores a → demoScores a ≤ demoScores (insights demoScores).strongest) ∧
    0 < demoScores (insights demoScores).weakest ∧
    (insights demoScores).weakestScore = demoScores (insights demoScores).weakest ∧
    (∀ a, 0 < demoScores a → demoScores (insights demoScores).weakest ≤ demoScores a) :=
  (insights_exclude_zero_and_fallback demoScores
      (by intro a; cases a <;> norm_num [demoScores])).2
    ⟨Area.Writing, by norm_num [demoScores]⟩

/-- Claim C6: among areas tied at the maximal (resp. minimal) nonzero score,
the selected strongest (resp. weakest) area is the one coming first in the
fixed priority order Speaking, Writing, Quiz, Handwritten. -/
theorem insights_tie_break (f : Area → ℚ) :
    ∀ a : Area, 0 < f a →
      (f a = (insights f).strongestScore →
        areaPriority (insights f).strongest ≤ areaPriority a) ∧
      (f a = (insights f).weakestScore →
        areaPriority (insights f).weakest ≤ areaPriority a) := by
  intro a ha
  rcases hn : nonZeroPairs f with _ | ⟨p, rest⟩
  · exact absurd (hn ▸ pair_mem_nonZeroPairs f a ha) (List.not_mem_nil _)
  · have hins : insights f =
        ⟨(foldMax p rest).1, (foldMax p rest).2, (foldMin p rest).1, (foldMin p rest).2⟩ := by
      rw [insights, hn]
    have hpw : (p :: rest).Pairwise fun p q => areaPriority p.1 < areaPriority q.1 :=
      hn ▸ nonZeroPairs_pairwise f
    have hamem : (a, f a) ∈ p :: rest := hn ▸ pair_mem_nonZeroPairs f a ha
    rw [hins]
    constructor
    · intro heq
      exact foldMax_first p rest hpw (a, f a) hamem heq
    · intro heq
      exact foldMin_first p rest hpw (a, f a) hamem heq

/-- A score mapping with ties for the C6 witness. -/
def demoTies : Area → ℚ
  | Area.Speaking => 50
  | Area.Writing => 90
  | Area.Quiz => 90
  | Area.Handwritten => 50

/-- Witness for C6: with Writing and Quiz tied at the top and Speaking and
Handwritten tied at the bottom, the selected areas sit no later in the
priority order than their tied partners. -/
theorem insights_tie_break_witness :
    areaPriority (insights demoTies).strongest ≤ areaPriority Area.Quiz ∧
    areaPriority (insights demoTies).weakest ≤ areaPriority Area.Handwritten := by
  have hs : demoTies Area.Quiz = (insights demoTies).strongestScore := by
    norm_num [demoTies, insights, nonZeroPairs, areaOrder, List.filter, foldMax]
  have hw : demoTies Area.Handwritten = (insights demoTies).weakestScore := by
    norm_num [demoTies, insights, nonZeroPairs, areaOrder, List.filter, foldMin]
  exact ⟨(insights_tie_break demoTies Area.Quiz (by norm_num [demoTies])).1 hs,
    (insights_tie_break demoTies Area.Handwritten (by norm_num [demoTies])).2 hw⟩

/-! ### Recommendation chain (claim C5) -/

/-- A single ungraded speaking submission: a speaking record exists, no
writing record exists. -/
def ungradedSpeaking : List Submission :=
  [⟨0, SubType.SPEAKING, 0, none⟩]

/-- Counterexample to claim C5 as stated: on one ungraded speaking record and
nothing else, the code recommends improving speaking (rule 1 tests
`speaking_subs`, which requires a grade), while the claim's rule 1 sees an
existing speaking record, passes, and its rule 2 recommends improving
writing. -/
theorem recommendation_claim_counterexample :
    recommendation ungradedSpeaking [] = some "Improve Your Speaking" ∧
    claimRecommendation ungradedSpeaking [] = some "Improve Your Writing" ∧
    recommendation ungradedSpeaking [] ≠ claimRecommendation ungradedSpeaking [] := by
  have h1 : recommendation ungradedSpeaking [] = some "Improve Your Speaking" := by
    simp [recommendation, ungradedSpeaking, writingScore, writing_subs, speaking_subs,
      List.filter]
  have h2 : claimRecommendation ungradedSpeaking [] = some "Improve Your Writing" := by
    simp [claimRecommendation, ungradedSpeaking, writingScore, writing_subs, speaking_subs,
      speakingScore, speakingVals, List.filter]
  refine ⟨h1, h2, ?_⟩
  rw [h1, h2]
  simp

/-- Claim C5 amended: the recommendation is decided by the first matching
rule of the fixed chain, where rules (1) and (2) test for the existence of a
GRADED speaking resp. writing submission (an ungraded submission does not
count); stated for inputs on which the writing average evaluates. -/
theorem recommendation_priority_chain (subs : List Submission) (quizzes : List Quiz)
    (w : ℚ) (hw : writingScore subs = some w) :
    (speaking_subs subs = [] →
      recommendation subs quizzes = some "Improve Your Speaking") ∧
    (speaking_subs subs ≠ [] → writing_subs subs = [] →
      recommendation subs quizzes = some "Improve Your Writing") ∧
    (speaking_subs subs ≠ [] → writing_subs subs ≠ [] → speakingScore subs < 70 →
      recommendation subs quizzes = some "Improve Your Speaking") ∧
    (speaking_subs subs ≠ [] → writing_subs subs ≠ [] → 70 ≤ speakingScore subs →
      w < 70 → recommendation subs quizzes = some "Improve Your Writing") ∧
    (speaking_subs subs ≠ [] → writing_subs subs ≠ [] → 70 ≤ speakingScore subs →
      70 ≤ w → quizzes = [] → recommendation subs quizzes = some "Take a Quiz") ∧
    (speaking_subs subs ≠ [] → writing_subs subs ≠ [] → 70 ≤ speakingScore subs →
      70 ≤ w → quizzes ≠ [] →
      recommendation subs quizzes = some "Start Your First Activity") := by
  refine ⟨?_, ?_, ?_, ?_, ?_, ?_⟩
  · intro h1
    simp [recommendation, hw, h1]
  · intro h1 h2
    simp [recommendation, hw, h1, h2]
  · intro h1 h2 h3
    simp [recommendation, hw, h1, h2, h3]
  · intro h1 h2 h3 h4
    simp [recommendation, hw, h1, h2, not_lt.2 h3, h4]
  · intro h1 h2 h3 h4 h5
    simp [recommendation, hw, h1, h2, not_lt.2 h3, not_lt.2 h4, h5]
  · intro h1 h2 h3 h4 h5
    simp [recommendation, hw, h1, h2, not_lt.2 h3, not_lt.2 h4, h5]

/-- The claim's end-to-end input: one graded speaking record with
pronunciation 80 and fluency 60, one graded writing record scoring 90, no
quizzes. -/
def endToEndSubs : List Submission :=
  [⟨0, SubType.SPEAKING, 0, some ⟨none, some 80, some 60⟩⟩,
   ⟨0, SubType.WRITING, 1, some ⟨some 90, none, none⟩⟩]

/-- Witness for the amended C5: the end-to-end input reaches rule 5 and gets
the quiz recommendation, with speaking average exactly 70.0 and writing
average 90.0. -/
theorem recommendation_priority_chain_witness :
    recommendation endToEndSubs [] = some "Take a Quiz" ∧
    speakingScore endToEndSubs = 70 ∧
    writingScore endToEndSubs = some 90 := by
  have hsp : speaking_subs endToEndSubs =
      [⟨0, SubType.SPEAKING, 0, some ⟨none, some 80, some 60⟩⟩] := by
    simp [speaking_subs, endToEndSubs, List.filter]
  have hwr : writing_subs endToEndSubs =
      [⟨0, SubType.WRITING, 1, some ⟨some 90, none, none⟩⟩] := by
    simp [writing_subs, endToEndSubs, List.filter]
  have hs70 : speakingScore endToEndSubs = 70 := by
    rw [speakingScore, hsp]
    norm_num [speakingVals, hsp, List.filterMap, round1, rne]
  have hw90 : writingScore endToEndSubs = some 90 := by
    rw [writingScore, hwr]
    norm_num [pySum, round1, rne]
  have h := recommendation_priority_chain endToEndSubs [] 90 hw90
  refine ⟨h.2.2.2.2.1 ?_ ?_ ?_ ?_ rfl, hs70, hw90⟩
  · rw [hsp]; simp
  · rw [hwr]; simp
  · rw [hs70]
  · norm_num

/-! ### Rounding mode (claim C7) -/

theorem rne_dist (y : ℚ) : |(rne y : ℚ) - y| ≤ 1 / 2 := by
  have h0 : ((⌊y⌋ : ℤ) : ℚ) ≤ y := Int.floor_le y
  have h1 : y < (⌊y⌋ : ℚ) + 1 := Int.lt_floor_add_one y
  rw [rne]
  split_ifs with hlt hgt heven
  · rw [abs_le]
    constructor <;> linarith
  · rw [abs_le]
    constructor <;> push_cast <;> linarith
  · have htie : y - (⌊y⌋ : ℚ) = 1 / 2 := le_antisymm (not_lt.1 hgt) (not_lt.1 hlt)
    rw [abs_le]
    constructor <;> linarith
  · have htie : y - (⌊y⌋ : ℚ) = 1 / 2 := le_antisymm (not_lt.1 hgt) (not_lt.1 hlt)
    rw [abs_le]
    constructor <;> push_cast <;> linarith

/-- Four graded writing submissions scoring 70, 70, 70 and 71: their mean is
70.25, an exact tie at one decimal. -/
def writingTieSubs : List Submission :=
  [⟨0, SubType.WRITING, 0, some ⟨some 70, none, none⟩⟩,
   ⟨0, SubType.WRITING, 0, some ⟨some 70, none, none⟩⟩,
   ⟨0, SubType.WRITING, 0, some ⟨some 70, none, none⟩⟩,
   ⟨0, SubType.WRITING, 0, some ⟨some 71, none, none⟩⟩]

/-- Counterexample to claim C7 as stated: on the tie 70.25 the code
(Python `round`) returns 70.2, rounding the half to the even digit, while
round-half-away-from-zero as named by the claim returns 70.3. -/
theorem rounding_claim_counterexample :
    writingScore writingTieSubs = some (351 / 5) ∧
    roundAway1 (281 / 4) = 703 / 10 ∧
    ((351 : ℚ) / 5) ≠ 703 / 10 := by
  refine ⟨?_, by norm_num [roundAway1], by norm_num⟩
  have hwr : writing_subs writingTieSubs = writingTieSubs := by
    simp [writing_subs, writingTieSubs, List.filter]
  rw [writingScore, hwr]
  have hlist : writingTieSubs ≠ [] := by simp [writingTieSubs]
  rw [if_neg hlist]
  have hfr : Int.fract ((1405 : ℚ) / 2) = 1 / 2 := by
    rw [Int.fract]
    norm_num
  norm_num [writingTieSubs, pySum, round1, rne, hfr]

/-- Claim C7 amended: every per-area average is rounded to one decimal with
Python's round-half-to-EVEN (banker's rounding), applied to the final
average only: the result is a multiple of 1/10 within 1/20 of the exact
mean, exact half-ties go to the even tenth, the speaking score applies the
rounding once to the exact mean of the exact per-event means, and the
writing score applies it once to the exact mean of the raw scores. -/
theorem rounding_half_to_even :
    (∀ x : ℚ, ∃ k : ℤ, round1 x = (k : ℚ) / 10 ∧ |x - round1 x| ≤ 1 / 20) ∧
    (∀ m : ℤ, ∃ k : ℤ, round1 ((2 * m + 1) / 20) = (k : ℚ) / 10 ∧ 2 ∣ k ∧
      ((k : ℚ) = (m : ℚ) ∨ (k : ℚ) = (m : ℚ) + 1)) ∧
    (∀ subs : List Submission, speaking_subs subs ≠ [] → speakingVals subs ≠ [] →
      speakingScore subs =
        round1 ((speakingVals subs).sum / (speakingVals subs).length)) ∧
    (∀ (subs : List Submission) (t : ℚ), writing_subs subs ≠ [] →
      pySum ((writing_subs subs).map fun s => s.grade.bind Grade.score) = some t →
      writingScore subs = some (round1 (t / (writing_subs subs).length))) := by
  refine ⟨?_, ?_, ?_, ?_⟩
  · intro x
    refine ⟨rne (10 * x), rfl, ?_⟩
    have hd := rne_dist (10 * x)
    have hxe : x - round1 x = (10 * x - (rne (10 * x) : ℚ)) / 10 := by
      rw [round1]; ring
    rw [hxe, abs_div, abs_of_pos (by norm_num : (0 : ℚ) < 10)]
    rw [abs_sub_comm] at hd
    linarith
  · intro m
    have hy : 10 * (((2 * m + 1 : ℤ) : ℚ) / 20) = (m : ℚ) + 1 / 2 := by
      push_cast
      ring
    have hfl : ⌊(m : ℚ) + 1 / 2⌋ = m := by
      rw [show (m : ℚ) + 1 / 2 = 1 / 2 + (m : ℚ) by ring, Int.floor_add_int]
      norm_num
    have hcond : ((m : ℚ) + 1 / 2) - ((⌊(m : ℚ) + 1 / 2⌋ : ℤ) : ℚ) = 1 / 2 := by
      rw [hfl]; ring
    by_cases hev : 2 ∣ m
    · refine ⟨m, ?_, hev, Or.inl rfl⟩
      rw [round1]
      rw [show ((2 * (m : ℚ) + 1) / 20) = ((2 * m + 1 : ℤ) : ℚ) / 20 by push_cast; ring]
      rw [hy, rne, hcond, hfl]
      norm_num [hev]
    · refine ⟨m + 1, ?_, by omega, Or.inr (by push_cast; ring)⟩
      rw [round1]
      rw [show ((2 * (m : ℚ) + 1) / 20) = ((2 * m + 1 : ℤ) : ℚ) / 20 by push_cast; ring]
      rw [hy, rne, hcond, hfl]
      norm_num [hev]
  · intro subs h1 h2
    rw [speakingScore, if_neg h1]
    simp only [if_neg h2]
  · intro subs t h1 hsum
    rw [writingScore, if_neg h1, hsum]
    rfl

/-- Witness for the amended C7 at the end-to-end input: the speaking score
is the rounding of the exact mean of its per-event means. -/
theorem rounding_half_to_even_witness :
    speakingScore endToEndSubs =
      round1 ((speakingVals endToEndSubs).sum / (speakingVals endToEndSubs).length) := by
  refine rounding_half_to_even.2.2.1 endToEndSubs ?_ ?_
  · simp [speaking_subs, endToEndSubs, List.filter]
  · simp [speakingVals, speaking_subs, endToEndSubs, List.filter, List.filterMap]

/-! ### Totality of the aggregations (claim C8) -/

theorem pySum_isSome (l : List (Option ℚ)) (h : ∀ o ∈ l, o.isSome) :
    ∃ t : ℚ, pySum l = some t := by
  induction l with
  | nil => exact ⟨0, rfl⟩
  | cons o rest ih =>
    obtain ⟨v, hv⟩ := Option.isSome_iff_exists.1 (h o (List.mem_cons_self _ _))
    obtain ⟨t, ht⟩ := ih fun o ho => h o (List.mem_cons_of_mem _ ho)
    exact ⟨v + t, by rw [pySum, hv, ht]; rfl⟩

/-- A speaking submission graded through its two sub-scores only, the
`score` field being absent — a graded record in the spec's own sense. -/
def subScoredSpeaking : List Submission :=
  [⟨0, SubType.SPEAKING, 0, some ⟨none, some 80, some 60⟩⟩]

/-- Counterexample to claim C8 as stated: on a speaking record graded via
sub-scores with no `score` field, the class-wide average raises (models as
`none`: line 353 sums a `None`), even though the speaking average itself is
70.0; a writing grade with an absent score likewise makes the writing
average raise. -/
theorem totality_claim_counterexample :
    avgScore subScoredSpeaking = none ∧
    speakingScore subScoredSpeaking = 70 ∧
    writingScore [⟨0, SubType.WRITING, 0, some ⟨none, none, none⟩⟩] = none := by
  refine ⟨?_, ?_, ?_⟩
  · simp [avgScore, gradedSubs, subScoredSpeaking, List.filter, pySum]
  · have hsp : speaking_subs subScoredSpeaking = subScoredSpeaking := by
      simp [speaking_subs, subScoredSpeaking, List.filter]
    rw [speakingScore, hsp]
    norm_num [speakingVals, hsp, subScoredSpeaking, List.filterMap, round1, rne]
  · simp [writingScore, writing_subs, List.filter, pySum]

/-- Claim C8 amended: the averages return exactly 0.0 on zero qualifying
graded events and complete without failure PROVIDED every record carrying a
grade has a present score; a graded record with an absent score makes the
writing, handwritten and class-wide averages raise (see the
counterexample), while the speaking and quiz averages are total
unconditionally. -/
theorem aggregation_totality (subs : List Submission) (quizzes : List Quiz)
    (H : ∀ s ∈ subs, ∀ g : Grade, s.grade = some g → g.score.isSome) :
    (avgScore subs).isSome ∧
    (writingScore subs).isSome ∧
    (handwrittenScore subs).isSome ∧
    (gradedSubs subs = [] → avgScore subs = some 0) ∧
    (writing_subs subs = [] → writingScore subs = some 0) ∧
    (handwritten_subs subs = [] → handwrittenScore subs = some 0) ∧
    (speakingVals subs = [] → speakingScore subs = 0) ∧
    (quizzes.filterMap Quiz.score = [] → quizScore quizzes = 0) := by
  have hscore : ∀ (l : List Submission), (∀ s ∈ l, s ∈ subs ∧ s.grade.isSome) →
      ∃ t : ℚ, pySum (l.map fun s => s.grade.bind Grade.score) = some t := by
    intro l hl
    refine pySum_isSome _ ?_
    intro o ho
    rw [List.mem_map] at ho
    obtain ⟨s, hs, rfl⟩ := ho
    obtain ⟨hmem, hg⟩ := hl s hs
    obtain ⟨g, hgeq⟩ := Option.isSome_iff_exists.1 hg
    rw [hgeq, Option.some_bind]
    exact H s hmem g hgeq
  refine ⟨?_, ?_, ?_, ?_, ?_, ?_, ?_, ?_⟩
  · by_cases h : gradedSubs subs = []
    · rw [avgScore, if_pos h]; rfl
    · rw [avgScore, if_neg h]
      obtain ⟨t, ht⟩ := hscore (gradedSubs subs) fun s hs =>
        ⟨(List.mem_filter.1 hs).1, by simpa using (List.mem_filter.1 hs).2⟩
      rw [ht]
      rfl
  · by_cases h : writing_subs subs = []
    · rw [writingScore, if_pos h]; rfl
    · rw [writingScore, if_neg h]
      obtain ⟨t, ht⟩ := hscore (writing_subs subs) fun s hs =>
        ⟨(List.mem_filter.1 hs).1, by
          have hh := (List.mem_filter.1 hs).2
          simp at hh
          exact hh.2⟩
      rw [ht]
      rfl
  · by_cases h : handwritten_subs subs = []
    · rw [handwrittenScore, if_pos h]; rfl
    · rw [handwrittenScore, if_neg h]
      obtain ⟨t, ht⟩ := hscore (handwritten_subs subs) fun s hs =>
        ⟨(List.mem_filter.1 hs).1, by
          have hh := (List.mem_filter.1 hs).2
          simp at hh
          exact hh.2⟩
      rw [ht]
      rfl
  · intro h
    rw [avgScore, if_pos h]
  · intro h
    rw [writingScore, if_pos h]
  · intro h
    rw [handwrittenScore, if_pos h]
  · intro h
    rw [speakingScore]
    by_cases hs : speaking_subs subs = []
    · rw [if_pos hs]
    · rw [if_neg hs]
      simp only [h]
      rfl
  · intro h
    rw [quizScore]
    by_cases hq : quizzes = []
    · rw [if_pos hq]
    · rw [if_neg hq]
      simp only [h]
      rfl

/-- Witness for the amended C8: the tie list has every grade's score
present, so the class-wide average evaluates; the quiz average of no
quizzes is 0. -/
theorem aggregation_totality_witness :
    (avgScore writingTieSubs).isSome ∧ quizScore ([] : List Quiz) = 0 := by
  have H : ∀ s ∈ writingTieSubs, ∀ g : Grade, s.grade = some g → g.score.isSome := by
    intro s hs g hg
    fin_cases hs <;> (injection hg with h; rw [← h]; rfl)
  have h := aggregation_totality writingTieSubs [] H
  exact ⟨h.1, h.2.2.2.2.2.2.2 rfl⟩

/-! ### Instructor sparkline (claim C9) -/

/-- What claim C9 says a submissions slot holds for day `d`. -/
def daySubmissionCount (subs : List Submission) (d : ℤ) : ℕ :=
  (subs.filter fun s => decide (s.created_at = d)).length

/-- What claim C9 says a pending slot holds for day `d`. -/
def dayPendingCount (subs : List Submission) (d : ℤ) : ℕ :=
  (subs.filter fun s => decide (s.created_at = d) && s.grade.isNone).length

/-- The scores of day `d`'s graded records (grade and score both present). -/
def dayGradedScores (subs : List Submission) (d : ℤ) : List ℚ :=
  (subs.filter fun s => decide (s.created_at = d)).filterMap fun s =>
    s.grade.bind Grade.score

/-- What claim C9 says an average slot holds for day `d`. -/
def dayAvg (subs : List Submission) (d : ℤ) : ℚ :=
  if dayGradedScores subs d = [] then 0
  else round1 ((dayGradedScores subs d).sum / (dayGradedScores subs d).length)

/-- What claim C9 says an active-students slot holds for day `d`. -/
def dayActiveCount (subs : List Submission) (d : ℤ) : ℕ :=
  (((subs.filter fun s => decide (s.created_at = d)).map fun s =>
    s.student_id).dedup).length

theorem last7_eq (today : ℤ) :
    last7 today = (List.range 7).map fun i : ℕ => today - 6 + (i : ℤ) := by
  simp [last7, List.range_succ]
  omega

theorem map_last7 {α : Type} (today : ℤ) (f : ℤ → α) :
    (last7 today).map f = (List.range 7).map fun i : ℕ => f (today - 6 + (i : ℤ)) := by
  rw [last7_eq, List.map_map]
  rfl

theorem mem_last7 (today : ℤ) (i : ℕ) (hi : i < 7) :
    today - 6 + (i : ℤ) ∈ last7 today := by
  rw [last7_eq, List.mem_map]
  exact ⟨i, List.mem_range.2 hi, rfl⟩

theorem window_and_eq (today d x : ℤ) (b : Bool) (hd : d ∈ last7 today) :
    (decide (x = d) && decide (x ∈ last7 today) && b) = (decide (x = d) && b) := by
  by_cases h : x = d
  · simp [h, hd]
  · simp [h]

theorem window_filter_eq (subs : List Submission) (today d : ℤ) (hd : d ∈ last7 today) :
    (subs.filter fun s =>
      decide (s.created_at = d) && decide (s.created_at ∈ last7 today)) =
    subs.filter fun s => decide (s.created_at = d) := by
  refine List.filter_congr fun s _ => ?_
  by_cases h : s.created_at = d
  · simp [h, hd]
  · simp [h]

theorem pySum_map_some (vals : List ℚ) : pySum (vals.map some) = some vals.sum := by
  induction vals with
  | nil => rfl
  | cons v rest ih => rw [List.map_cons, pySum, ih]; rfl

theorem graded_scores_map (l : List Submission)
    (Hl : ∀ s ∈ l, ∀ g : Grade, s.grade = some g → g.score.isSome) :
    ((l.filter fun s => s.grade.isSome).map fun s => s.grade.bind Grade.score) =
      (l.filterMap fun s => s.grade.bind Grade.score).map some := by
  induction l with
  | nil => rfl
  | cons s rest ih =>
    have hrest := ih fun s hs g hg => Hl s (List.mem_cons_of_mem _ hs) g hg
    rcases hg : s.grade with _ | g
    · simp only [List.filter_cons, List.filterMap_cons, hg]
      simpa using hrest
    · obtain ⟨v, hv⟩ := Option.isSome_iff_exists.1 (Hl s (List.mem_cons_self _ _) g hg)
      have hhead : s.grade.bind Grade.score = some v := by
        rw [hg, Option.some_bind, hv]
      simp only [List.filter_cons, List.filterMap_cons, hg, Option.some_bind, hv]
      simp [hhead, hrest, hg, hv]

/-- Claim C9: the sparkline is four aligned length-7 arrays whose slot `i`
describes day `today - 6 + i` (oldest first): submission count, pending
count, rounded mean of the day's graded scores (0.0 on none), and distinct
active students — stated for inputs on which the averages evaluate (every
grade carries a score). -/
theorem instructor_sparkline (subs : List Submission) (today : ℤ)
    (H : ∀ s ∈ subs, ∀ g : Grade, s.grade = some g → g.score.isSome) :
    (last7 today).length = 7 ∧
    (sparkSubmissions subs today).length = 7 ∧
    (sparkPending subs today).length = 7 ∧
    (sparkAvg subs today).length = 7 ∧
    (sparkActive subs today).length = 7 ∧
    sparkSubmissions subs today =
      (List.range 7).map (fun i : ℕ => daySubmissionCount subs (today - 6 + (i : ℤ))) ∧
    sparkPending subs today =
      (List.range 7).map (fun i : ℕ => dayPendingCount subs (today - 6 + (i : ℤ))) ∧
    sparkAvg subs today =
      (List.range 7).map (fun i : ℕ => some (dayAvg subs (today - 6 + (i : ℤ)))) ∧
    sparkActive subs today =
      (List.range 7).map (fun i : ℕ => dayActiveCount subs (today - 6 + (i : ℤ))) := by
  have hlen : (last7 today).length = 7 := by rw [last7_eq, List.length_map, List.length_range]
  have hsub : sparkSubmissions subs today =
      (List.range 7).map (fun i : ℕ => daySubmissionCount subs (today - 6 + (i : ℤ))) := by
    rw [sparkSubmissions, map_last7]
    refine List.map_congr_left fun i hi => ?_
    have hd := mem_last7 today i (List.mem_range.1 hi)
    rw [window_filter_eq subs today _ hd, daySubmissionCount]
  have hpen : sparkPending subs today =
      (List.range 7).map (fun i : ℕ => dayPendingCount subs (today - 6 + (i : ℤ))) := by
    rw [sparkPending, map_last7]
    refine List.map_congr_left fun i hi => ?_
    have hd := mem_last7 today i (List.mem_range.1 hi)
    rw [dayPendingCount]
    congr 1
    refine List.filter_congr fun s _ => ?_
    exact window_and_eq today _ s.created_at s.grade.isNone hd
  have hact : sparkActive subs today =
      (List.range 7).map (fun i : ℕ => dayActiveCount subs (today - 6 + (i : ℤ))) := by
    rw [sparkActive, map_last7]
    refine List.map_congr_left fun i hi => ?_
    have hd := mem_last7 today i (List.mem_range.1 hi)
    rw [window_filter_eq subs today _ hd, dayActiveCount]
  have havg : sparkAvg subs today =
      (List.range 7).map (fun i : ℕ => some (dayAvg subs (today - 6 + (i : ℤ)))) := by
    rw [sparkAvg, map_last7]
    refine List.map_congr_left fun i hi => ?_
    have hd := mem_last7 today i (List.mem_range.1 hi)
    set d := today - 6 + (i : ℤ) with hdName
    have hfil : (subs.filter fun s =>
        decide (s.created_at = d) && decide (s.created_at ∈ last7 today)
          && s.grade.isSome) =
        ((subs.filter fun s => decide (s.created_at = d)).filter fun s =>
          s.grade.isSome) := by
      rw [List.filter_filter]
      refine List.filter_congr fun s _ => ?_
      by_cases h : s.created_at = d
      · simp [h, hd]
      · simp [h]
    have Hfil : ∀ s ∈ (subs.filter fun s => decide (s.created_at = d)),
        ∀ g : Grade, s.grade = some g → g.score.isSome :=
      fun s hs g hg => H s (List.mem_filter.1 hs).1 g hg
    have hbucket :
        ((subs.filter fun s =>
          decide (s.created_at = d) && decide (s.created_at ∈ last7 today)
            && s.grade.isSome).map fun s => s.grade.bind Grade.score) =
        (dayGradedScores subs d).map some := by
      rw [hfil, dayGradedScores]
      exact graded_scores_map _ Hfil
    rw [hbucket, dayAvg]
    by_cases hempty : dayGradedScores subs d = []
    · rw [if_pos (by rw [hempty]; rfl), if_pos hempty]
    · have hne : (dayGradedScores subs d).map some ≠ [] := by
        simpa using hempty
      rw [if_neg hne, if_neg hempty, pySum_map_some]
      simp
  refine ⟨hlen, ?_, ?_, ?_, ?_, hsub, hpen, havg, hact⟩
  · rw [hsub, List.length_map, List.length_range]
  · rw [hpen, List.length_map, List.length_range]
  · rw [havg, List.length_map, List.length_range]
  · rw [hact, List.length_map, List.length_range]

/-- Witness for C9 at a one-submission class on day `today`. -/
theorem instructor_sparkline_witness :
    sparkSubmissions [⟨3, SubType.WRITING, 0, none⟩] 0 =
      (List.range 7).map
        (fun i : ℕ => daySubmissionCount [⟨3, SubType.WRITING, 0, none⟩] (0 - 6 + (i : ℤ))) ∧
    sparkActive [⟨3, SubType.WRITING, 0, none⟩] 0 =
      (List.range 7).map
        (fun i : ℕ => dayActiveCount [⟨3, SubType.WRITING, 0, none⟩] (0 - 6 + (i : ℤ))) := by
  have h := instructor_sparkline [⟨3, SubType.WRITING, 0, none⟩] 0
    (by intro s hs g hg; fin_cases hs; exact absurd hg (by simp))
  exact ⟨h.2.2.2.2.2.1, h.2.2.2.2.2.2.2.2⟩

/-! ### Truthiness versus is-not-None (claim C10) -/

/-- Claim C10: a graded speaking record with both sub-scores present but one
equal to 0 is excluded from the headline speaking average (truthiness test)
yet included in the chart speaking series (is-not-None test); concretely,
with pronunciation 0 and fluency 80 the average is 0.0 while the chart slot
for that date is 40, a nonzero value. -/
theorem speaking_truthiness_asymmetry :
    (∀ (s : Submission) (g : Grade) (p f : ℚ),
      s.submission_type = SubType.SPEAKING → s.grade = some g →
      g.pronunciation_score = some p → g.fluency_score = some f →
      (p = 0 ∨ f = 0) →
      speakingVals [s] = [] ∧ speakingScore [s] = 0 ∧
      speakingEvents [s] = [(s.created_at, (p + f) / 2)]) ∧
    (speakingScore [⟨0, SubType.SPEAKING, 0, some ⟨none, some 0, some 80⟩⟩] = 0 ∧
     chartSpeaking [⟨0, SubType.SPEAKING, 0, some ⟨none, some 0, some 80⟩⟩] [] = [40] ∧
     (40 : ℚ) ≠ 0) := by
  constructor
  · intro s g p f ht hg hp hf h0
    have hsp : speaking_subs [s] = [s] := by
      simp [speaking_subs, List.filter, ht, hg]
    have hvals : speakingVals [s] = [] := by
      rw [speakingVals, hsp]
      simp [hg, hp, hf, h0]
    refine ⟨hvals, ?_, ?_⟩
    · rw [speakingScore, if_neg (by rw [hsp]; simp)]
      simp only [hvals]
      rfl
    · rw [speakingEvents, hsp]
      simp [hg, hp, hf]
  · have hsp : speaking_subs [⟨0, SubType.SPEAKING, 0, some ⟨none, some 0, some 80⟩⟩] =
        [⟨0, SubType.SPEAKING, 0, some ⟨none, some 0, some 80⟩⟩] := by
      simp [speaking_subs, List.filter]
    have hvals : speakingVals [⟨0, SubType.SPEAKING, 0, some ⟨none, some 0, some 80⟩⟩] =
        [] := by
      rw [speakingVals, hsp]
      simp
    have hev : speakingEvents [⟨0, SubType.SPEAKING, 0, some ⟨none, some 0, some 80⟩⟩] =
        [(0, 40)] := by
      rw [speakingEvents, hsp]
      norm_num [List.filterMap]
    refine ⟨?_, ?_, by norm_num⟩
    · rw [speakingScore, if_neg (by rw [hsp]; simp)]
      simp only [hvals]
      rfl
    · rw [chartSpeaking, chartDates, hev]
      have hwr : writingEvents [⟨0, SubType.SPEAKING, 0, some ⟨none, some 0, some 80⟩⟩] =
          [] := by
        simp [writingEvents, writing_subs, List.filter]
      have hhw : handwrittenEvents
          [⟨0, SubType.SPEAKING, 0, some ⟨none, some 0, some 80⟩⟩] = [] := by
        simp [handwrittenEvents, handwritten_subs, List.filter]
      have hqz : quizEvents ([] : List Quiz) = [] := rfl
      rw [hwr, hhw, hqz]
      have hdates : ((([((0 : ℤ), (40 : ℚ))] ++ [] ++ [] ++ []).map
          Prod.fst).toFinset).sort (· ≤ ·) = [0] := by
        simp
      rw [hdates]
      have hfr : Int.fract ((400 : ℚ)) = 0 := by
        rw [Int.fract]
        norm_num
      norm_num [chartSeriesFor, buildBuckets, insertBucket, lookupBucket, List.find?,
        round1, rne, hfr]

/-- Witness for C10: the concrete record with pronunciation 0 and fluency 80
is dropped from the headline values yet contributes the chart event (0, 40). -/
theorem speaking_truthiness_asymmetry_witness :
    speakingVals [⟨0, SubType.SPEAKING, 0, some ⟨none, some 0, some 80⟩⟩] = [] ∧
    speakingEvents [⟨0, SubType.SPEAKING, 0, some ⟨none, some 0, some 80⟩⟩] =
      [(0, 40)] := by
  have h := speaking_truthiness_asymmetry.1
    ⟨0, SubType.SPEAKING, 0, some ⟨none, some 0, some 80⟩⟩
    ⟨none, some 0, some 80⟩ 0 80 rfl rfl rfl rfl (Or.inl rfl)
  refine ⟨h.1, ?_⟩
  rw [h.2.2]
  norm_num

end Seng321
